import Mathlib

/-!
Verification of the smart-expense-tracker core (src/app.py) against its
natural-language specification.

The Python source is shallowly embedded: an expense record (a row of the
pandas dataframe after date parsing) is a `Date` (year, month, day) plus a
category, a rational amount and a description; monetary values (Python
floats) are embedded as rationals, so every arithmetic statement below is
exact.  Each definition mirrors one function of `ExpenseTracker` or of the
insight page `show_ai_insights`.
-/

namespace ExpenseApp

/-- A parsed calendar date, the value of the `date` column after
`pd.to_datetime` succeeded (`app.py` line 72). -/
structure Date where
  year : Nat
  month : Nat
  day : Nat
deriving DecidableEq

/-- One row of `expenses_df` with a parsed date: columns
`date, category, amount, description` (`app.py` line 76). -/
structure ExpenseRecord where
  date : Date
  category : String
  amount : ℚ
  description : String
deriving DecidableEq

/-- `ExpenseTracker.get_monthly_summary` (app.py lines 112-118): the records
whose date has exactly the given year and month. -/
def get_monthly_summary (records : List ExpenseRecord) (y m : Nat) :
    List ExpenseRecord :=
  records.filter fun r => decide (r.date.year = y ∧ r.date.month = m)

/-- The total amount the rows of `rows` with category `c` carry: the value
`groupby('category')['amount'].sum()` assigns to the group `c`. -/
def catSum (rows : List ExpenseRecord) (c : String) : ℚ :=
  ((rows.filter fun r => decide (r.category = c)).map (·.amount)).sum

/-- `groupby('category')['amount'].sum().reset_index()` (app.py line 125):
one `(category, summed amount)` pair per distinct category of `rows`.
The source (pandas) orders groups by sorted key; no consumer depends on the
order (spec §4.2), so the embedding keeps the first-occurrence order of
`List.dedup`. -/
def groupSum (rows : List ExpenseRecord) : List (String × ℚ) :=
  (rows.map (·.category)).dedup.map fun c => (c, catSum rows c)

/-- `ExpenseTracker.get_category_totals` (app.py lines 120-125). -/
def get_category_totals (records : List ExpenseRecord) (y m : Nat) :
    List (String × ℚ) :=
  let monthly := get_monthly_summary records y m
  if monthly = [] then [] else groupSum monthly

/-- The budget map `self.budgets`, a JSON object: an association list from
category to amount.  `budgets.get(category, 0)` is `budgetOf`. -/
def budgetOf (budgets : List (String × ℚ)) (c : String) : ℚ :=
  (((budgets.find? fun p => decide (p.1 = c)).map Prod.snd).getD 0)

/-- An element of the list `check_budget_alerts` returns
(app.py lines 173-179). -/
structure BudgetAlert where
  category : String
  budget : ℚ
  spent : ℚ
  overspend : ℚ
deriving DecidableEq

/-- `ExpenseTracker.check_budget_alerts` (app.py lines 157-181): for each
category of the month's category totals, look up its budget (default 0) and
emit an alert when `budget > 0 and spent > budget`. -/
def check_budget_alerts (records : List ExpenseRecord)
    (budgets : List (String × ℚ)) (y m : Nat) : List BudgetAlert :=
  if get_monthly_summary records y m = [] then []
  else
    (get_category_totals records y m).filterMap fun p =>
      let b := budgetOf budgets p.1
      if 0 < b ∧ b < p.2 then some ⟨p.1, b, p.2, p.2 - b⟩ else none

/-- The amount category `c` spent in month `(y, m)`. -/
def spentIn (records : List ExpenseRecord) (y m : Nat) (c : String) : ℚ :=
  catSum (get_monthly_summary records y m) c

section ListLemmas

/-- Membership in a monthly summary. -/
theorem mem_get_monthly_summary {records : List ExpenseRecord} {y m : Nat}
    {r : ExpenseRecord} :
    r ∈ get_monthly_summary records y m ↔
      r ∈ records ∧ r.date.year = y ∧ r.date.month = m := by
  simp [get_monthly_summary, List.mem_filter]

/-- Membership in `groupSum rows`: the pairs are exactly
`(c, catSum rows c)` for the categories `c` occurring in `rows`. -/
theorem mem_groupSum {rows : List ExpenseRecord} {p : String × ℚ} :
    p ∈ groupSum rows ↔
      (∃ r ∈ rows, r.category = p.1) ∧ p.2 = catSum rows p.1 := by
  constructor
  · intro hp
    rcases List.mem_map.mp hp with ⟨c, hc, hcp⟩
    rcases List.mem_map.mp (List.mem_dedup.mp hc) with ⟨r, hr, hrc⟩
    cases hcp
    exact ⟨⟨r, hr, hrc⟩, rfl⟩
  · rintro ⟨⟨r, hr, hrc⟩, hval⟩
    have hc : p.1 ∈ (rows.map (·.category)).dedup :=
      List.mem_dedup.mpr (List.mem_map.mpr ⟨r, hr, hrc⟩)
    have : (p.1, catSum rows p.1) = p := by
      cases p; simp_all
    exact this ▸ List.mem_map.mpr ⟨p.1, hc, rfl⟩

/-- Splitting a mapped sum along a boolean filter. -/
theorem sum_map_filter_split (rows : List ExpenseRecord)
    (p : ExpenseRecord → Bool) (f : ExpenseRecord → ℚ) :
    ((rows.filter p).map f).sum + ((rows.filter fun r => !(p r)).map f).sum
      = (rows.map f).sum := by
  induction rows with
  | nil => simp
  | cons r rs ih =>
    by_cases h : p r = true <;>
      simp [List.filter_cons, h, ← ih] <;> ring

/-- Restricting to rows outside one category does not change another
category's rows. -/
theorem filter_cat_of_ne (rows : List ExpenseRecord) {c c' : String}
    (h : c' ≠ c) :
    ((rows.filter fun r => !(decide (r.category = c))).filter
        fun r => decide (r.category = c'))
      = rows.filter fun r => decide (r.category = c') := by
  have hcc : ¬ c = c' := fun he => h he.symm
  induction rows with
  | nil => rfl
  | cons r rs ih =>
    by_cases hr : r.category = c'
    · have hrc : ¬ r.category = c := fun he => h (hr ▸ he ▸ rfl)
      simp [List.filter_cons, hr, hrc, h, hcc, ih]
    · by_cases hc : r.category = c <;>
        simp [List.filter_cons, hr, hc, h, hcc, ih]

/-- Summing per-category totals over a duplicate-free list of categories
covering every row gives the grand total. -/
theorem sum_over_cats (cats : List String) (rows : List ExpenseRecord)
    (hnd : cats.Nodup) (hcov : ∀ r ∈ rows, r.category ∈ cats) :
    (cats.map fun c => catSum rows c).sum = (rows.map (·.amount)).sum := by
  induction cats generalizing rows with
  | nil =>
    cases rows with
    | nil => simp
    | cons r rs => exact absurd (hcov r (List.mem_cons_self r rs)) (by simp)
  | cons c cs ih =>
    have hnd' := (List.nodup_cons.mp hnd).2
    have hmem : c ∉ cs := (List.nodup_cons.mp hnd).1
    set rows' := rows.filter fun r => !(decide (r.category = c)) with hrows'
    have hcov' : ∀ r ∈ rows', r.category ∈ cs := by
      intro r hr
      have hmf := List.mem_filter.mp hr
      rcases List.mem_cons.mp (hcov r hmf.1) with hh | hh
      · exact absurd hh (by simpa using hmf.2)
      · exact hh
    have hcongr : (cs.map fun c' => catSum rows c')
        = cs.map fun c' => catSum rows' c' := by
      refine List.map_congr_left fun c' hc' => ?_
      have hne : c' ≠ c := fun he => hmem (he ▸ hc')
      unfold catSum
      rw [hrows', filter_cat_of_ne rows hne]
    have hsplit := sum_map_filter_split rows
      (fun r => decide (r.category = c)) (·.amount)
    calc (((c :: cs).map fun c' => catSum rows c')).sum
        = catSum rows c + (cs.map fun c' => catSum rows' c').sum := by
          rw [List.map_cons, List.sum_cons, hcongr]
      _ = catSum rows c + (rows'.map (·.amount)).sum := by
          rw [ih rows' hnd' hcov']
      _ = (rows.map (·.amount)).sum := by
          rw [← hsplit]; rfl

/-- The grouped totals of `groupSum` add up to the total of the rows. -/
theorem sum_groupSum (rows : List ExpenseRecord) :
    ((groupSum rows).map Prod.snd).sum = (rows.map (·.amount)).sum := by
  unfold groupSum
  rw [List.map_map]
  exact sum_over_cats _ rows (List.nodup_dedup _)
    fun r hr => List.mem_dedup.mpr (List.mem_map.mpr ⟨r, hr, rfl⟩)

end ListLemmas

/-- The `(year, month)` group key of a record, the columns
`expenses_df['year']`, `expenses_df['month']` derived on app.py
lines 133-134 and 459-460. -/
def ymKey (r : ExpenseRecord) : Nat × Nat :=
  (r.date.year, r.date.month)

/-- Lexicographic order on `(year, month)` keys, the ascending key order of
`groupby(['year', 'month'])`. -/
def ymLe (a b : Nat × Nat) : Bool :=
  decide (a.1 < b.1 ∨ (a.1 = b.1 ∧ a.2 ≤ b.2))

/-- Insertion into a `ymLe`-sorted list. -/
def insertYm (x : Nat × Nat) : List (Nat × Nat) → List (Nat × Nat)
  | [] => [x]
  | y :: ys => if ymLe x y then x :: y :: ys else y :: insertYm x ys

/-- Insertion sort by `ymLe`: the ascending key order `groupby` returns. -/
def sortYm : List (Nat × Nat) → List (Nat × Nat)
  | [] => []
  | x :: xs => insertYm x (sortYm xs)

/-- `groupby(['year', 'month'])['amount'].sum()` (app.py line 135, line
461): one `((year, month), total)` entry per distinct month of the records,
in ascending key order. -/
def monthlyTotalsSeries (records : List ExpenseRecord) :
    List ((Nat × Nat) × ℚ) :=
  (sortYm (records.map ymKey).dedup).map fun k =>
    (k, ((records.filter fun r => decide (ymKey r = k)).map (·.amount)).sum)

/-- The monthly totals alone, in ascending month order: the series
`monthly_totals` of `show_ai_insights` (app.py line 461). -/
def seriesTotals (records : List ExpenseRecord) : List ℚ :=
  (monthlyTotalsSeries records).map Prod.snd

/-- Mean of a list of rationals (`Series.mean()`); `0` on the empty list. -/
def listMean (l : List ℚ) : ℚ :=
  l.sum / l.length

/-- `Series.std()` squared: the pandas sample variance, with denominator
`n - 1` (ddof = 1). -/
def sampleVar (l : List ℚ) : ℚ :=
  (l.map fun x => (x - listMean l) ^ 2).sum / ((l.length : ℚ) - 1)

/-- A regression point `(month_num, amount)`: the global month index
`year * 12 + month` (app.py line 136) against the monthly total. -/
def toPoint (e : (Nat × Nat) × ℚ) : ℚ × ℚ :=
  (((e.1.1 * 12 + e.1.2 : Nat) : ℚ), e.2)

/-- The regression data `X, y` of `predict_next_month` (app.py
lines 142-143). -/
def predPoints (records : List ExpenseRecord) : List (ℚ × ℚ) :=
  (monthlyTotalsSeries records).map toPoint

/-- Mean of the x-coordinates of the regression points. -/
def xbar (pts : List (ℚ × ℚ)) : ℚ :=
  listMean (pts.map Prod.fst)

/-- Mean of the y-coordinates of the regression points. -/
def ybar (pts : List (ℚ × ℚ)) : ℚ :=
  listMean (pts.map Prod.snd)

/-- Centered second moment of the x-coordinates. -/
def sxx (pts : List (ℚ × ℚ)) : ℚ :=
  (pts.map fun p => (p.1 - xbar pts) ^ 2).sum

/-- Centered cross moment of the coordinates. -/
def sxy (pts : List (ℚ × ℚ)) : ℚ :=
  (pts.map fun p => (p.1 - xbar pts) * (p.2 - ybar pts)).sum

/-- The slope `sklearn.linear_model.LinearRegression` fits (app.py
lines 145-146): for a single feature, ordinary least squares has the closed
form `sxy / sxx` (`ols_minimizes` below proves the least-squares property). -/
def fitSlope (pts : List (ℚ × ℚ)) : ℚ :=
  sxy pts / sxx pts

/-- The intercept of the fitted ordinary-least-squares line. -/
def fitIntercept (pts : List (ℚ × ℚ)) : ℚ :=
  ybar pts - fitSlope pts * xbar pts

/-- The sum of squared residuals of the line `y = b * x + a` on `pts`: the
objective ordinary least squares minimizes. -/
def sse (pts : List (ℚ × ℚ)) (b a : ℚ) : ℚ :=
  (pts.map fun p => (p.2 - (b * p.1 + a)) ^ 2).sum

/-- `ExpenseTracker.predict_next_month` (app.py lines 127-155) as a pure
function of the records and of the wall-clock `datetime.now()` year and
month (the source reads them on lines 149-150; the embedding passes them as
arguments).  Guards mirror lines 129-130 and 138-139; the prediction index
is `current_year * 12 + current_month + 1` (line 151) and the output is
clamped by `max(0, prediction)` (line 155). -/
def predict_next_month (records : List ExpenseRecord) (curY curM : Nat) :
    Option ℚ × String :=
  if records.length < 3 then (none, "Not enough data for prediction")
  else if (monthlyTotalsSeries records).length < 3 then
    (none, "Not enough monthly data for prediction")
  else
    let pts := predPoints records
    (some (max 0 (fitIntercept pts + fitSlope pts
        * ((curY * 12 + curM + 1 : Nat) : ℚ))),
      "Prediction based on historical data")

/-- The trend classification of `show_ai_insights` (app.py lines 469-474). -/
inductive Trend where
  | increasing
  | decreasing
  | stable
deriving DecidableEq

/-- The spending-trend insight of `show_ai_insights` (app.py lines 463-474):
with at least 2 monthly totals, compare the mean of the last three
(`tail(3)`) with the mean of the rest (`head(-3)`, or the earliest total
when there are at most 3 months) and classify the percent change.  The
division is exact rational division; the model is faithful whenever the
previous average is nonzero (the source divides floats and the spec flags
`previousAvg == 0` as an unguarded edge case). -/
def trendInsight (records : List ExpenseRecord) : Option (ℚ × Trend) :=
  let t := seriesTotals records
  if 2 ≤ t.length then
    let recentAvg := listMean (t.drop (t.length - 3))
    let previousAvg :=
      if 3 < t.length then listMean (t.take (t.length - 3)) else t.headI
    let changePercent := (recentAvg - previousAvg) / previousAvg * 100
    some (changePercent,
      if 10 < changePercent then Trend.increasing
      else if changePercent < -10 then Trend.decreasing
      else Trend.stable)
  else none

/-- The monthly-consistency insight of `show_ai_insights` (app.py
lines 510-518): with at least 3 monthly totals, report `some true`
("inconsistent spending") when the coefficient of variation
`std / mean` exceeds `0.3`, `some false` ("consistent spending")
otherwise, and `none` (no signal) below 3 totals.  The float comparison
`cv > 0.3` is embedded squared — `9 * mean² < 100 * var` together with
`0 < mean` — which agrees with the source whenever the mean is nonzero
(`c8_consistency_cv` relates it to the real square root). -/
def consistencySignal (records : List ExpenseRecord) : Option Bool :=
  let t := seriesTotals records
  if 3 ≤ t.length then
    some (decide (0 < listMean t) &&
      decide (9 * listMean t ^ 2 < 100 * sampleVar t))
  else none

/-! Concrete data used by the witness theorems: the example scenario of
spec §8 (records of 2024-01/02 in category Food, budget 700). -/

/-- The records of the spec's example scenario. -/
def exScenario : List ExpenseRecord :=
  [⟨⟨2024, 1, 5⟩, "Food", 500, "lunch"⟩,
   ⟨⟨2024, 1, 20⟩, "Food", 300, "dinner"⟩,
   ⟨⟨2024, 2, 10⟩, "Food", 200, "snack"⟩]

/-- The budget map of the spec's example scenario. -/
def exBudget : List (String × ℚ) := [("Food", 700)]

/-- Claim C1: `check_budget_alerts(year, month)` emits an alert for
category `C` iff `C` has a record in that month, its budget (0 when
absent) is positive and the month's spend exceeds it; each alert carries
exactly `{category, budget, spent, overspend = spent - budget}`; the
result is empty when the month has no records. -/
theorem c1_budget_alert_iff (records : List ExpenseRecord)
    (budgets : List (String × ℚ)) (y m : Nat) (C : String) :
    ((∃ a ∈ check_budget_alerts records budgets y m, a.category = C) ↔
      ((∃ r ∈ records, r.date.year = y ∧ r.date.month = m ∧ r.category = C) ∧
        0 < budgetOf budgets C ∧
        budgetOf budgets C < spentIn records y m C))
    ∧ (∀ a ∈ check_budget_alerts records budgets y m,
        a.budget = budgetOf budgets a.category ∧
        a.spent = spentIn records y m a.category ∧
        a.overspend = a.spent - a.budget)
    ∧ (get_monthly_summary records y m = [] →
        check_budget_alerts records budgets y m = []) := by
  by_cases hemp : get_monthly_summary records y m = []
  · have halerts : check_budget_alerts records budgets y m = [] := by
      simp [check_budget_alerts, hemp]
    refine ⟨?_, ?_, fun _ => halerts⟩
    · rw [halerts]
      simp only [List.not_mem_nil, false_and, exists_const]
      constructor
      · intro h
        exact absurd h (by simp)
      · rintro ⟨⟨r, hr, hy, hm, _⟩, _⟩
        have : r ∈ get_monthly_summary records y m :=
          mem_get_monthly_summary.mpr ⟨hr, hy, hm⟩
        rw [hemp] at this
        exact absurd this (List.not_mem_nil r)
    · rw [halerts]; intro a ha; exact absurd ha (List.not_mem_nil a)
  · have halerts : check_budget_alerts records budgets y m
        = (groupSum (get_monthly_summary records y m)).filterMap fun p =>
            if 0 < budgetOf budgets p.1 ∧ budgetOf budgets p.1 < p.2 then
              some ⟨p.1, budgetOf budgets p.1, p.2, p.2 - budgetOf budgets p.1⟩
            else none := by
      simp [check_budget_alerts, get_category_totals, hemp]
    refine ⟨?_, ?_, fun h => absurd h hemp⟩
    · rw [halerts]
      constructor
      · rintro ⟨a, ha, hac⟩
        rcases List.mem_filterMap.mp ha with ⟨p, hp, hgp⟩
        by_cases hcond : 0 < budgetOf budgets p.1 ∧ budgetOf budgets p.1 < p.2
        · rw [if_pos hcond] at hgp
          cases Option.some.inj hgp
          rcases mem_groupSum.mp hp with ⟨⟨r, hr, hrc⟩, hval⟩
          subst hac
          have hrm := mem_get_monthly_summary.mp hr
          refine ⟨⟨r, hrm.1, hrm.2.1, hrm.2.2, hrc⟩, hcond.1, ?_⟩
          have : p.2 = spentIn records y m p.1 := hval
          exact this ▸ hcond.2
        · rw [if_neg hcond] at hgp; exact absurd hgp (by simp)
      · rintro ⟨⟨r, hr, hy, hm, hc⟩, hb, hs⟩
        have hrm : r ∈ get_monthly_summary records y m :=
          mem_get_monthly_summary.mpr ⟨hr, hy, hm⟩
        have hp : (C, spentIn records y m C)
            ∈ groupSum (get_monthly_summary records y m) :=
          mem_groupSum.mpr ⟨⟨r, hrm, hc⟩, rfl⟩
        refine ⟨⟨C, budgetOf budgets C, spentIn records y m C,
          spentIn records y m C - budgetOf budgets C⟩,
          List.mem_filterMap.mpr ⟨(C, spentIn records y m C), hp, ?_⟩, rfl⟩
        rw [if_pos ⟨hb, hs⟩]
    · rw [halerts]
      intro a ha
      rcases List.mem_filterMap.mp ha with ⟨p, hp, hgp⟩
      by_cases hcond : 0 < budgetOf budgets p.1 ∧ budgetOf budgets p.1 < p.2
      · rw [if_pos hcond] at hgp
        cases Option.some.inj hgp
        rcases mem_groupSum.mp hp with ⟨_, hval⟩
        exact ⟨rfl, hval, rfl⟩
      · rw [if_neg hcond] at hgp; exact absurd hgp (by simp)

/-- Witness for C1 at the spec's example scenario: January 2024 spend of
800 against a Food budget of 700 raises a Food alert. -/
theorem c1_budget_alert_iff_witness :
    ∃ a ∈ check_budget_alerts exScenario exBudget 2024 1,
      a.category = "Food" :=
  (c1_budget_alert_iff exScenario exBudget 2024 1 "Food").1.mpr
    ⟨by decide, by norm_num [budgetOf, exBudget],
      by norm_num [budgetOf, exBudget, spentIn, catSum, get_monthly_summary,
        exScenario]⟩

/-- Claim C5: per-category totals are the grouped monthly summary — their
amounts sum to the summary's total, each pair is `(category, spent)` for a
category occurring in the month, categories are not repeated, and an empty
month gives an empty result. -/
theorem c5_category_totals_partition (records : List ExpenseRecord)
    (y m : Nat) :
    ((get_category_totals records y m).map Prod.snd).sum
        = ((get_monthly_summary records y m).map (·.amount)).sum
    ∧ (∀ p : String × ℚ, p ∈ get_category_totals records y m ↔
        ((∃ r ∈ get_monthly_summary records y m, r.category = p.1) ∧
          p.2 = spentIn records y m p.1))
    ∧ ((get_category_totals records y m).map Prod.fst).Nodup
    ∧ (get_monthly_summary records y m = [] →
        get_category_totals records y m = []) := by
  by_cases hemp : get_monthly_summary records y m = []
  · have htot : get_category_totals records y m = [] := by
      simp [get_category_totals, hemp]
    refine ⟨?_, ?_, ?_, fun _ => htot⟩
    · rw [htot, hemp]; rfl
    · intro p
      rw [htot, hemp]
      simp
    · rw [htot]; exact List.nodup_nil
  · have htot : get_category_totals records y m
        = groupSum (get_monthly_summary records y m) := by
      simp [get_category_totals, hemp]
    refine ⟨?_, ?_, ?_, fun h => absurd h hemp⟩
    · rw [htot, sum_groupSum]
    · intro p
      rw [htot]
      exact mem_groupSum
    · rw [htot]
      unfold groupSum
      rw [List.map_map]
      have hcomp : (Prod.fst ∘ fun c =>
          (c, catSum (get_monthly_summary records y m) c)) = id := rfl
      rw [hcomp, List.map_id]
      exact List.nodup_dedup _

/-- Witness for C5 at the spec's example scenario: the January 2024
category totals sum to the month's 800 total. -/
theorem c5_category_totals_partition_witness :
    ((get_category_totals exScenario 2024 1).map Prod.snd).sum
      = ((get_monthly_summary exScenario 2024 1).map (·.amount)).sum :=
  (c5_category_totals_partition exScenario 2024 1).1

/-- Claim C3: `predict_next_month` returns the structured no-result
`(none, "Not enough data for prediction")` on fewer than 3 records, and
`(none, "Not enough monthly data for prediction")` on at least 3 records
spanning fewer than 3 distinct months; the prediction is `some` exactly
when both thresholds are met. -/
theorem c3_prediction_guards (records : List ExpenseRecord)
    (curY curM : Nat) :
    (records.length < 3 →
      predict_next_month records curY curM
        = (none, "Not enough data for prediction"))
    ∧ (3 ≤ records.length → (monthlyTotalsSeries records).length < 3 →
      predict_next_month records curY curM
        = (none, "Not enough monthly data for prediction"))
    ∧ ((predict_next_month records curY curM).1.isSome ↔
        (3 ≤ records.length ∧ 3 ≤ (monthlyTotalsSeries records).length)) := by
  refine ⟨fun h1 => by simp [predict_next_month, h1],
    fun h1 h2 => by
      rw [predict_next_month, if_neg (by omega), if_pos h2],
    ?_⟩
  by_cases h1 : records.length < 3
  · rw [predict_next_month, if_pos h1]
    simp only [Option.isSome_none, Bool.false_eq_true, false_iff]
    omega
  · by_cases h2 : (monthlyTotalsSeries records).length < 3
    · rw [predict_next_month, if_neg h1, if_pos h2]
      simp only [Option.isSome_none, Bool.false_eq_true, false_iff]
      omega
    · rw [predict_next_month, if_neg h1, if_neg h2]
      simp only [Option.isSome_some, true_iff]
      omega

section RegressionLemmas

/-- Sums of pointwise sums split. -/
theorem qsum_map_add {α : Type} (l : List α) (f g : α → ℚ) :
    (l.map fun x => f x + g x).sum = (l.map f).sum + (l.map g).sum := by
  induction l with
  | nil => simp
  | cons x xs ih => simp [ih]; ring

/-- Constants pull out of sums. -/
theorem qsum_map_mul {α : Type} (l : List α) (c : ℚ) (f : α → ℚ) :
    (l.map fun x => c * f x).sum = c * (l.map f).sum := by
  induction l with
  | nil => simp
  | cons x xs ih => simp [ih]; ring

/-- A constant summed over a list. -/
theorem qsum_map_const {α : Type} (l : List α) (c : ℚ) :
    (l.map fun _ => c).sum = (l.length : ℚ) * c := by
  induction l with
  | nil => simp
  | cons x xs ih => simp [ih]; ring

/-- A sum of pointwise-nonnegative terms is nonnegative. -/
theorem qsum_map_nonneg {α : Type} (l : List α) (f : α → ℚ)
    (h : ∀ x ∈ l, 0 ≤ f x) : 0 ≤ (l.map f).sum := by
  induction l with
  | nil => simp
  | cons x xs ih =>
    simp only [List.map_cons, List.sum_cons]
    have := h x (List.mem_cons_self x xs)
    have := ih fun y hy => h y (List.mem_cons_of_mem x hy)
    linarith

/-- A vanishing sum of squares has vanishing terms. -/
theorem qsum_sq_eq_zero {α : Type} (l : List α) (f : α → ℚ)
    (h : (l.map fun x => f x ^ 2).sum = 0) : ∀ x ∈ l, f x = 0 := by
  induction l with
  | nil => intro x hx; exact absurd hx (List.not_mem_nil x)
  | cons y ys ih =>
    simp only [List.map_cons, List.sum_cons] at h
    have hy : 0 ≤ f y ^ 2 := sq_nonneg _
    have hys : 0 ≤ (ys.map fun x => f x ^ 2).sum :=
      qsum_map_nonneg ys _ fun x _ => sq_nonneg _
    have hy0 : f y ^ 2 = 0 := by linarith
    intro x hx
    rcases List.mem_cons.mp hx with hh | hh
    · rw [hh]
      exact (pow_eq_zero_iff (by norm_num)).mp hy0
    · exact ih (by linarith) x hh

/-- The x-coordinates sum to zero once centered at their mean. -/
theorem qsum_center_fst (pts : List (ℚ × ℚ)) (hne : pts ≠ []) :
    (pts.map fun p => p.1 - xbar pts).sum = 0 := by
  have hn : ((pts.length : ℚ)) ≠ 0 := by
    have hpos : 0 < pts.length := List.length_pos.mpr hne
    exact Nat.cast_ne_zero.mpr (by omega)
  have hfun : (pts.map fun p => p.1 - xbar pts)
      = pts.map fun p => Prod.fst p + -(xbar pts) :=
    List.map_congr_left fun p _ => by ring
  rw [hfun, qsum_map_add pts Prod.fst fun _ => -(xbar pts),
    qsum_map_const, xbar, listMean, List.length_map]
  field_simp
  ring

/-- The y-coordinates sum to zero once centered at their mean. -/
theorem qsum_center_snd (pts : List (ℚ × ℚ)) (hne : pts ≠ []) :
    (pts.map fun p => p.2 - ybar pts).sum = 0 := by
  have hn : ((pts.length : ℚ)) ≠ 0 := by
    have hpos : 0 < pts.length := List.length_pos.mpr hne
    exact Nat.cast_ne_zero.mpr (by omega)
  have hfun : (pts.map fun p => p.2 - ybar pts)
      = pts.map fun p => Prod.snd p + -(ybar pts) :=
    List.map_congr_left fun p _ => by ring
  rw [hfun, qsum_map_add pts Prod.snd fun _ => -(ybar pts),
    qsum_map_const, ybar, listMean, List.length_map]
  field_simp
  ring

/-- The fitted residuals are orthogonal to the centered x-coordinates. -/
theorem qsum_resid_dot_center (pts : List (ℚ × ℚ)) (hs : sxx pts ≠ 0) :
    (pts.map fun p =>
      ((p.2 - ybar pts) - fitSlope pts * (p.1 - xbar pts))
        * (p.1 - xbar pts)).sum = 0 := by
  have hsplit : (pts.map fun p =>
      ((p.2 - ybar pts) - fitSlope pts * (p.1 - xbar pts)) * (p.1 - xbar pts))
      = pts.map fun p => (p.1 - xbar pts) * (p.2 - ybar pts)
          + (-fitSlope pts) * ((p.1 - xbar pts) ^ 2) := by
    refine List.map_congr_left fun p _ => by ring
  rw [hsplit, qsum_map_add, qsum_map_mul, ← sxy, ← sxx, fitSlope]
  field_simp

/-- The fitted residuals sum to zero. -/
theorem qsum_resid (pts : List (ℚ × ℚ)) (hne : pts ≠ []) :
    (pts.map fun p =>
      (p.2 - ybar pts) - fitSlope pts * (p.1 - xbar pts)).sum = 0 := by
  have hsplit : (pts.map fun p =>
      (p.2 - ybar pts) - fitSlope pts * (p.1 - xbar pts))
      = pts.map fun p => (p.2 - ybar pts)
          + (-fitSlope pts) * (p.1 - xbar pts) := by
    refine List.map_congr_left fun p _ => by ring
  rw [hsplit, qsum_map_add, qsum_map_mul, qsum_center_fst pts hne,
    qsum_center_snd pts hne]
  ring

/-- The residual sum of squares at the fitted line. -/
theorem sse_at_fit (pts : List (ℚ × ℚ)) :
    sse pts (fitSlope pts) (fitIntercept pts)
      = (pts.map fun p =>
          ((p.2 - ybar pts) - fitSlope pts * (p.1 - xbar pts)) ^ 2).sum := by
  unfold sse fitIntercept
  refine congrArg List.sum (List.map_congr_left fun p _ => by ring)

/-- Decomposition of the sum of squared residuals of an arbitrary line
into the fitted minimum plus two nonnegative penalties. -/
theorem sse_decomp (pts : List (ℚ × ℚ)) (hne : pts ≠ []) (hs : sxx pts ≠ 0)
    (b a : ℚ) :
    sse pts b a
      = sse pts (fitSlope pts) (fitIntercept pts)
        + (fitSlope pts - b) ^ 2 * sxx pts
        + (pts.length : ℚ) * (ybar pts - b * xbar pts - a) ^ 2 := by
  have hpoint : (pts.map fun p => (p.2 - (b * p.1 + a)) ^ 2)
      = pts.map fun p =>
          (((p.2 - ybar pts) - fitSlope pts * (p.1 - xbar pts)) ^ 2
            + (fitSlope pts - b) ^ 2 * ((p.1 - xbar pts) ^ 2))
          + ((ybar pts - b * xbar pts - a) ^ 2
            + ((2 * (fitSlope pts - b))
                * (((p.2 - ybar pts) - fitSlope pts * (p.1 - xbar pts))
                    * (p.1 - xbar pts))
              + ((2 * (ybar pts - b * xbar pts - a))
                  * ((p.2 - ybar pts) - fitSlope pts * (p.1 - xbar pts))
                + (2 * (ybar pts - b * xbar pts - a) * (fitSlope pts - b))
                    * (p.1 - xbar pts)))) := by
    refine List.map_congr_left fun p _ => by ring
  rw [sse, hpoint, qsum_map_add, qsum_map_add, qsum_map_add, qsum_map_add,
    qsum_map_add, qsum_map_mul, qsum_map_mul, qsum_map_mul, qsum_map_mul,
    qsum_map_const, qsum_resid_dot_center pts hs, qsum_resid pts hne,
    qsum_center_fst pts hne, sse_at_fit]
  unfold sxx
  ring

/-- Ordinary-least-squares optimality: the closed-form slope and intercept
minimize the sum of squared residuals over all lines. -/
theorem ols_minimizes (pts : List (ℚ × ℚ)) (hne : pts ≠ [])
    (hs : sxx pts ≠ 0) (b a : ℚ) :
    sse pts (fitSlope pts) (fitIntercept pts) ≤ sse pts b a := by
  rw [sse_decomp pts hne hs b a]
  have h1 : 0 ≤ (fitSlope pts - b) ^ 2 * sxx pts := by
    have hnn : 0 ≤ sxx pts :=
      qsum_map_nonneg pts _ fun p _ => sq_nonneg _
    exact mul_nonneg (sq_nonneg _) hnn
  have h2 : 0 ≤ (pts.length : ℚ) * (ybar pts - b * xbar pts - a) ^ 2 :=
    mul_nonneg (by positivity) (sq_nonneg _)
  linarith

/-- With at least two distinct x-coordinates the centered second moment is
positive. -/
theorem sxx_pos (pts : List (ℚ × ℚ)) (h2 : 2 ≤ pts.length)
    (hnd : (pts.map Prod.fst).Nodup) : 0 < sxx pts := by
  have hnn : 0 ≤ sxx pts := qsum_map_nonneg pts _ fun p _ => sq_nonneg _
  rcases lt_or_eq_of_le hnn with h | h
  · exact h
  · exfalso
    have hall : ∀ p ∈ pts, p.1 - xbar pts = 0 :=
      qsum_sq_eq_zero pts _ h.symm
    cases pts with
    | nil => simp at h2
    | cons p0 tl =>
      cases tl with
      | nil => simp at h2
      | cons p1 rest =>
        have h0 : p0.1 - xbar (p0 :: p1 :: rest) = 0 := hall p0 (by simp)
        have h1 : p1.1 - xbar (p0 :: p1 :: rest) = 0 := hall p1 (by simp)
        have heq : p0.1 = p1.1 := by linarith
        have hne01 : p0.1 ≠ p1.1 := by
          have hh := (List.nodup_cons.mp hnd).1
          simp only [List.map_cons, List.mem_cons] at hh
          exact fun he => hh (Or.inl he)
        exact hne01 heq

/-- Exactly linear data is recovered exactly: if every point lies on
`y = α + β x`, the fit returns slope `β` and intercept `α`. -/
theorem fit_exact (pts : List (ℚ × ℚ)) (α β : ℚ) (hne : pts ≠ [])
    (hs : sxx pts ≠ 0) (hlin : ∀ p ∈ pts, p.2 = α + β * p.1) :
    fitSlope pts = β ∧ fitIntercept pts = α := by
  have hn : ((pts.length : ℚ)) ≠ 0 := by
    have : 0 < pts.length := List.length_pos.mpr hne
    positivity
  have hybar : ybar pts = α + β * xbar pts := by
    have hysum : (pts.map Prod.snd).sum
        = (pts.length : ℚ) * α + β * (pts.map Prod.fst).sum := by
      have hmap : pts.map Prod.snd = pts.map fun p => α + β * p.1 :=
        List.map_congr_left fun p hp => hlin p hp
      rw [hmap, qsum_map_add, qsum_map_const, qsum_map_mul]
    rw [ybar, xbar, listMean, listMean, hysum, List.length_map,
      List.length_map]
    field_simp
    ring
  have hsxy : sxy pts = β * sxx pts := by
    have hmap : (pts.map fun p => (p.1 - xbar pts) * (p.2 - ybar pts))
        = pts.map fun p => β * ((p.1 - xbar pts) ^ 2) := by
      refine List.map_congr_left fun p hp => ?_
      rw [hlin p hp, hybar]
      ring
    rw [sxy, hmap, qsum_map_mul, ← sxx]
  have hslope : fitSlope pts = β := by
    rw [fitSlope, hsxy, mul_div_assoc, div_self hs, mul_one]
  refine ⟨hslope, ?_⟩
  rw [fitIntercept, hslope, hybar]
  ring

end RegressionLemmas

section SeriesLemmas

/-- Inserting into a sorted key list permutes consing. -/
theorem insertYm_perm (x : Nat × Nat) (l : List (Nat × Nat)) :
    List.Perm (insertYm x l) (x :: l) := by
  induction l with
  | nil => exact List.Perm.refl _
  | cons y ys ih =>
    by_cases h : ymLe x y
    · rw [insertYm, if_pos h]
    · rw [insertYm, if_neg h]
      exact (ih.cons y).trans (List.Perm.swap x y ys)

/-- Sorting the month keys only reorders them. -/
theorem sortYm_perm (l : List (Nat × Nat)) : List.Perm (sortYm l) l := by
  induction l with
  | nil => exact List.Perm.refl _
  | cons x xs ih =>
    exact (insertYm_perm x (sortYm xs)).trans (ih.cons x)

/-- The keys of the monthly series are the sorted distinct month keys. -/
theorem series_fst (records : List ExpenseRecord) :
    (monthlyTotalsSeries records).map Prod.fst
      = sortYm (records.map ymKey).dedup := by
  unfold monthlyTotalsSeries
  rw [List.map_map]
  have hcomp : (Prod.fst ∘ fun k : Nat × Nat =>
      (k, ((records.filter fun r => decide (ymKey r = k)).map
        (·.amount)).sum)) = id := rfl
  rw [hcomp, List.map_id]

/-- Each month key appears once in the monthly series. -/
theorem series_keys_nodup (records : List ExpenseRecord) :
    ((monthlyTotalsSeries records).map Prod.fst).Nodup := by
  rw [series_fst]
  exact ((sortYm_perm _).nodup_iff).mpr (List.nodup_dedup _)

/-- Each key of the monthly series is the key of some record. -/
theorem series_keys_mem (records : List ExpenseRecord) (k : Nat × Nat)
    (hk : k ∈ (monthlyTotalsSeries records).map Prod.fst) :
    ∃ r ∈ records, ymKey r = k := by
  rw [series_fst] at hk
  have hk2 : k ∈ (records.map ymKey).dedup := (sortYm_perm _).mem_iff.mp hk
  exact List.mem_map.mp (List.mem_dedup.mp hk2)

/-- With calendar-valid months, distinct month keys give distinct global
month indices, so the regression x-coordinates are distinct. -/
theorem predPoints_fst_nodup (records : List ExpenseRecord)
    (hmv : ∀ r ∈ records, 1 ≤ r.date.month ∧ r.date.month ≤ 12) :
    ((predPoints records).map Prod.fst).Nodup := by
  unfold predPoints
  rw [List.map_map]
  have hcomp : (Prod.fst ∘ toPoint)
      = (fun k : Nat × Nat => ((k.1 * 12 + k.2 : Nat) : ℚ)) ∘ Prod.fst :=
    rfl
  rw [hcomp, ← List.map_map]
  refine List.Nodup.map_on ?_ (series_keys_nodup records)
  intro x hx y hy hxy
  rcases series_keys_mem records x hx with ⟨rx, hrx, hrxk⟩
  rcases series_keys_mem records y hy with ⟨ry, hry, hryk⟩
  have hmx : 1 ≤ x.2 ∧ x.2 ≤ 12 := hrxk ▸ hmv rx hrx
  have hmy : 1 ≤ y.2 ∧ y.2 ≤ 12 := hryk ▸ hmv ry hry
  have hnat : x.1 * 12 + x.2 = y.1 * 12 + y.2 := by exact_mod_cast hxy
  have h1 : x.1 = y.1 := by omega
  have h2 : x.2 = y.2 := by omega
  exact Prod.ext h1 h2

/-- The regression points have one entry per month bucket. -/
theorem predPoints_length (records : List ExpenseRecord) :
    (predPoints records).length = (monthlyTotalsSeries records).length := by
  unfold predPoints
  rw [List.length_map]

/-- With at least 3 month buckets of calendar-valid months, the regression
design is nondegenerate. -/
theorem predPoints_sxx_pos (records : List ExpenseRecord)
    (hmv : ∀ r ∈ records, 1 ≤ r.date.month ∧ r.date.month ≤ 12)
    (hser : 3 ≤ (monthlyTotalsSeries records).length) :
    0 < sxx (predPoints records) := by
  refine sxx_pos _ ?_ (predPoints_fst_nodup records hmv)
  rw [predPoints_length]
  omega

end SeriesLemmas

/-- Claim C2: with at least 3 records in at least 3 distinct months,
`predict_next_month` returns the ordinary-least-squares line over the
`(year * 12 + month, monthly total)` pairs, evaluated at the wall-clock
index `current_year * 12 + current_month + 1`, clamped to a non-negative
floor, with the message "Prediction based on historical data"; the fitted
coefficients minimize the sum of squared residuals over all lines. -/
theorem c2_prediction_ols (records : List ExpenseRecord) (curY curM : Nat)
    (hmv : ∀ r ∈ records, 1 ≤ r.date.month ∧ r.date.month ≤ 12)
    (hlen : 3 ≤ records.length)
    (hser : 3 ≤ (monthlyTotalsSeries records).length) :
    predict_next_month records curY curM
      = (some (max 0 (fitIntercept (predPoints records)
            + fitSlope (predPoints records)
              * ((curY * 12 + curM + 1 : Nat) : ℚ))),
        "Prediction based on historical data")
    ∧ (∀ b a : ℚ,
        sse (predPoints records) (fitSlope (predPoints records))
            (fitIntercept (predPoints records))
          ≤ sse (predPoints records) b a)
    ∧ (∀ q : ℚ, (predict_next_month records curY curM).1 = some q →
        0 ≤ q) := by
  have heq : predict_next_month records curY curM
      = (some (max 0 (fitIntercept (predPoints records)
            + fitSlope (predPoints records)
              * ((curY * 12 + curM + 1 : Nat) : ℚ))),
        "Prediction based on historical data") := by
    rw [predict_next_month, if_neg (by omega), if_neg (by omega)]
  refine ⟨heq, ?_, ?_⟩
  · intro b a
    have hne : predPoints records ≠ [] := by
      have := predPoints_length records
      intro hnil
      rw [hnil] at this
      simp at this
      omega
    exact ols_minimizes _ hne
      (ne_of_gt (predPoints_sxx_pos records hmv hser)) b a
  · intro q hq
    rw [heq] at hq
    cases Option.some.inj hq
    exact le_max_left 0 _

/-- Three records in three consecutive months with rising totals, used by
the C2 witness. -/
def exGrow : List ExpenseRecord :=
  [⟨⟨2024, 1, 3⟩, "Food", 400, "a"⟩,
   ⟨⟨2024, 2, 7⟩, "Travel", 500, "b"⟩,
   ⟨⟨2024, 3, 9⟩, "Food", 600, "c"⟩]

/-- Witness for C2: the concrete prediction for April 2024 over the
`exGrow` records is the clamped fitted-line value. -/
theorem c2_prediction_ols_witness :
    predict_next_month exGrow 2024 3
      = (some (max 0 (fitIntercept (predPoints exGrow)
            + fitSlope (predPoints exGrow)
              * ((2024 * 12 + 3 + 1 : Nat) : ℚ))),
        "Prediction based on historical data") :=
  (c2_prediction_ols exGrow 2024 3 (by decide) (by decide)
    (by norm_num [monthlyTotalsSeries, exGrow, ymKey, sortYm, insertYm,
      ymLe, List.dedup])).1

/-- Claim C7 (amended): on monthly totals that are an exact linear
function of the global month index over at least 3 consecutive months,
with the wall clock in the last data month, `predict_next_month` returns
the extrapolated linear value clamped at zero — equal to the extrapolated
value exactly whenever that value is non-negative — and never negative. -/
theorem c7_linear_forecast (records : List ExpenseRecord)
    (curY curM k n : Nat) (α β : ℚ)
    (hlen : 3 ≤ records.length)
    (hn : 3 ≤ n)
    (hser : predPoints records
      = (List.range n).map fun i =>
          (((k + i : Nat) : ℚ), α + β * ((k + i : Nat) : ℚ)))
    (htar : curY * 12 + curM + 1 = k + n) :
    predict_next_month records curY curM
      = (some (max 0 (α + β * ((k + n : Nat) : ℚ))),
        "Prediction based on historical data")
    ∧ (0 ≤ α + β * ((k + n : Nat) : ℚ) →
        (predict_next_month records curY curM).1
          = some (α + β * ((k + n : Nat) : ℚ)))
    ∧ (∀ q : ℚ, (predict_next_month records curY curM).1 = some q →
        0 ≤ q) := by
  have hplen : (predPoints records).length = n := by
    rw [hser, List.length_map, List.length_range]
  have hslen : (monthlyTotalsSeries records).length = n := by
    rw [← predPoints_length, hplen]
  have hne : predPoints records ≠ [] := by
    intro hnil
    rw [hnil] at hplen
    simp at hplen
    omega
  have hnd : ((predPoints records).map Prod.fst).Nodup := by
    rw [hser, List.map_map]
    have hcomp : (Prod.fst ∘ fun i : Nat =>
        ((((k + i : Nat) : ℚ)), α + β * ((k + i : Nat) : ℚ)))
        = fun i : Nat => ((k + i : Nat) : ℚ) := rfl
    rw [hcomp]
    refine List.Nodup.map_on ?_ (List.nodup_range n)
    intro x _ y _ hxy
    have : (k + x : Nat) = (k + y : Nat) := by exact_mod_cast hxy
    omega
  have hs : sxx (predPoints records) ≠ 0 := by
    refine ne_of_gt (sxx_pos _ ?_ hnd)
    omega
  have hlin : ∀ p ∈ predPoints records, p.2 = α + β * p.1 := by
    intro p hp
    rw [hser] at hp
    rcases List.mem_map.mp hp with ⟨i, _, hip⟩
    rw [← hip]
  rcases fit_exact (predPoints records) α β hne hs hlin with ⟨hsl, hic⟩
  have heq : predict_next_month records curY curM
      = (some (max 0 (α + β * ((k + n : Nat) : ℚ))),
        "Prediction based on historical data") := by
    rw [predict_next_month, if_neg (by omega), if_neg (by omega)]
    simp only [hsl, hic, htar]
  refine ⟨heq, ?_, ?_⟩
  · intro hnn
    rw [heq]
    simp only [max_eq_right hnn]
  · intro q hq
    rw [heq] at hq
    cases Option.some.inj hq
    exact le_max_left 0 _

/-- Three records whose monthly totals fall linearly by 400 each month:
1000, 600, 200 for 2024-01..03. -/
def exDecline : List ExpenseRecord :=
  [⟨⟨2024, 1, 5⟩, "Food", 1000, "a"⟩,
   ⟨⟨2024, 2, 5⟩, "Food", 600, "b"⟩,
   ⟨⟨2024, 3, 5⟩, "Food", 200, "c"⟩]

/-- Counterexample to C7 as stated: on the exactly linear but declining
totals 1000, 600, 200, the extrapolated linear value for the next month is
-200, yet the returned prediction is 0 — not within any floating-point
tolerance of the extrapolation. -/
theorem c7_clamp_counterexample :
    (predict_next_month exDecline 2024 3).1 = some 0
    ∧ fitIntercept (predPoints exDecline)
        + fitSlope (predPoints exDecline)
          * ((2024 * 12 + 3 + 1 : Nat) : ℚ) = -200
    ∧ (0 : ℚ) ≠ -200 := by
  refine ⟨?_, ?_, by norm_num⟩
  · norm_num [predict_next_month, fitIntercept, fitSlope, sxy, sxx, xbar,
      ybar, listMean, predPoints, toPoint, monthlyTotalsSeries, exDecline,
      ymKey, sortYm, insertYm, ymLe, List.dedup]
  · norm_num [fitIntercept, fitSlope, sxy, sxx, xbar, ybar, listMean,
      predPoints, toPoint, monthlyTotalsSeries, exDecline, ymKey, sortYm,
      insertYm, ymLe, List.dedup]

/-- Witness for C7's amended theorem: with rising linear totals 400, 500,
600 the April 2024 forecast is exactly the extrapolated 700. -/
theorem c7_linear_forecast_witness :
    (predict_next_month exGrow 2024 3).1 = some 700 := by
  have hr3 : List.range 3 = [0, 1, 2] := rfl
  have h := (c7_linear_forecast exGrow 2024 3 24289 3
    (400 - 100 * 24289) 100 (by decide) (by decide)
    (by norm_num [predPoints, toPoint, monthlyTotalsSeries, exGrow, ymKey,
        sortYm, insertYm, ymLe, List.dedup, hr3])
    (by norm_num)).2.1 (by norm_num)
  rw [h]
  norm_num

/-- Witness for C3: two records are not enough data for a prediction. -/
theorem c3_prediction_guards_witness :
    predict_next_month
      [⟨⟨2024, 1, 5⟩, "Food", 500, "a"⟩, ⟨⟨2024, 2, 5⟩, "Food", 300, "b"⟩]
      2024 2 = (none, "Not enough data for prediction") :=
  (c3_prediction_guards _ 2024 2).1 (by decide)

section InsightLemmas

/-- The mean of the last three entries, described spec-style (take 3 from
the reversed list) and code-style (drop all but the last 3) coincide. -/
theorem listMean_last3 (l : List ℚ) :
    listMean ((l.reverse.take 3).reverse) = listMean (l.drop (l.length - 3)) := by
  rcases le_or_lt 3 l.length with h | h
  · have h1 : (l.drop (l.length - 3)).reverse = l.reverse.take 3 := by
      rw [List.reverse_drop]
      congr 1
      omega
    rw [← h1, List.reverse_reverse]
  · have h1 : l.reverse.take 3 = l.reverse :=
      List.take_of_length_le (by rw [List.length_reverse]; omega)
    have h0 : l.length - 3 = 0 := by omega
    rw [h1, List.reverse_reverse, h0, List.drop_zero]

end InsightLemmas

/-- The claim's `recentAvg`: the mean of the last 3 monthly totals (or
fewer when fewer exist). -/
def specRecentAvg (records : List ExpenseRecord) : ℚ :=
  listMean (((seriesTotals records).reverse.take 3).reverse)

/-- The claim's `previousAvg`: the mean of all monthly totals excluding
the last 3 when more than 3 months exist, otherwise the earliest month's
total. -/
def specPreviousAvg (records : List ExpenseRecord) : ℚ :=
  if 3 < (seriesTotals records).length then
    listMean ((seriesTotals records).take ((seriesTotals records).length - 3))
  else (seriesTotals records).headI

/-- The claim's `changePercent = (recentAvg - previousAvg) / previousAvg
* 100`. -/
def specChangePercent (records : List ExpenseRecord) : ℚ :=
  (specRecentAvg records - specPreviousAvg records)
    / specPreviousAvg records * 100

/-- Claim C4: with at least 2 monthly totals (and a nonzero previous
average, the regime in which the float division of the source is faithfully
embedded by rational division), the trend insight computes `recentAvg`,
`previousAvg` and `changePercent` as the claim states them and classifies
`> 10` as increasing, `< -10` as decreasing and anything else as stable. -/
theorem c4_trend_classification (records : List ExpenseRecord)
    (h2 : 2 ≤ (seriesTotals records).length)
    (_hp : specPreviousAvg records ≠ 0) :
    trendInsight records
      = some (specChangePercent records,
          if 10 < specChangePercent records then Trend.increasing
          else if specChangePercent records < -10 then Trend.decreasing
          else Trend.stable) := by
  rw [trendInsight]
  rw [if_pos h2]
  have hra : listMean (((seriesTotals records).reverse.take 3).reverse)
      = listMean ((seriesTotals records).drop
          ((seriesTotals records).length - 3)) := listMean_last3 _
  simp only [specChangePercent, specRecentAvg, specPreviousAvg, hra]

/-- Witness for C4: over the rising totals 400, 500, 600 the change is
+25% and the trend is classified increasing. -/
theorem c4_trend_classification_witness :
    trendInsight exGrow = some (25, Trend.increasing) := by
  have h := c4_trend_classification exGrow
    (by norm_num [seriesTotals, monthlyTotalsSeries, exGrow, ymKey, sortYm,
      insertYm, ymLe, List.dedup])
    (by norm_num [specPreviousAvg, seriesTotals, monthlyTotalsSeries,
      exGrow, ymKey, sortYm, insertYm, ymLe, List.dedup])
  rw [h]
  norm_num [specChangePercent, specRecentAvg, specPreviousAvg,
    seriesTotals, monthlyTotalsSeries, exGrow, ymKey, sortYm, insertYm,
    ymLe, List.dedup, listMean]

/-- Claim C8: with at least 3 monthly totals and a positive mean (the
regime in which the squared rational comparison of the embedding is the
float comparison `std / mean > 0.3` of the source), the consistency
insight signals inconsistent spending exactly when the coefficient of
variation `stddev / mean` exceeds 3/10, signals consistent spending
otherwise, and produces no signal below 3 totals. -/
theorem c8_consistency_cv (records : List ExpenseRecord) :
    (3 ≤ (seriesTotals records).length →
      0 < listMean (seriesTotals records) →
      (consistencySignal records = some true ↔
        (3 : ℝ) / 10 < Real.sqrt ((sampleVar (seriesTotals records) : ℚ) : ℝ)
          / ((listMean (seriesTotals records) : ℚ) : ℝ)))
    ∧ (3 ≤ (seriesTotals records).length →
      0 < listMean (seriesTotals records) →
      (consistencySignal records = some false ↔
        ¬ ((3 : ℝ) / 10 < Real.sqrt ((sampleVar (seriesTotals records) : ℚ) : ℝ)
          / ((listMean (seriesTotals records) : ℚ) : ℝ))))
    ∧ ((seriesTotals records).length < 3 → consistencySignal records = none) := by
  have hcv : ∀ h3 : 3 ≤ (seriesTotals records).length,
      ∀ hm : 0 < listMean (seriesTotals records),
      ((3 : ℝ) / 10 < Real.sqrt ((sampleVar (seriesTotals records) : ℚ) : ℝ)
          / ((listMean (seriesTotals records) : ℚ) : ℝ)
        ↔ 9 * listMean (seriesTotals records) ^ 2
            < 100 * sampleVar (seriesTotals records)) := by
    intro h3 hm
    set v : ℚ := sampleVar (seriesTotals records) with hv
    set mq : ℚ := listMean (seriesTotals records) with hmq
    have hmr : (0 : ℝ) < (mq : ℝ) := by exact_mod_cast hm
    rw [lt_div_iff₀ hmr]
    rw [Real.lt_sqrt (by positivity)]
    constructor
    · intro h
      have h9 : (9 : ℝ) * (mq : ℝ) ^ 2 < 100 * (v : ℝ) := by nlinarith
      exact_mod_cast h9
    · intro h
      have h9 : (9 : ℝ) * (mq : ℝ) ^ 2 < 100 * (v : ℝ) := by exact_mod_cast h
      nlinarith
  refine ⟨?_, ?_, ?_⟩
  · intro h3 hm
    rw [consistencySignal]
    simp only [h3, if_pos]
    rw [hcv h3 hm]
    simp [hm]
  · intro h3 hm
    rw [consistencySignal]
    simp only [h3, if_pos]
    rw [hcv h3 hm]
    simp [hm]
  · intro h3
    rw [consistencySignal]
    rw [if_neg (by omega)]

/-- Witness for C8: the volatile totals 1000, 600, 200 have a coefficient
of variation above 3/10. -/
theorem c8_consistency_cv_witness :
    (3 : ℝ) / 10 < Real.sqrt ((sampleVar (seriesTotals exDecline) : ℚ) : ℝ)
      / ((listMean (seriesTotals exDecline) : ℚ) : ℝ) :=
  ((c8_consistency_cv exDecline).1
    (by norm_num [seriesTotals, monthlyTotalsSeries, exDecline, ymKey,
      sortYm, insertYm, ymLe, List.dedup])
    (by norm_num [seriesTotals, monthlyTotalsSeries, exDecline, ymKey,
      sortYm, insertYm, ymLe, List.dedup, listMean])).mp
    (by norm_num [consistencySignal, seriesTotals, monthlyTotalsSeries,
      exDecline, ymKey, sortYm, insertYm, ymLe, List.dedup, listMean,
      sampleVar])

/-!
Persistence model for the round-trip and invariant claims.  The CSV store
(`expenses.csv`) is a list of raw rows whose date cell is a character
list; `pd.to_datetime(..., errors='coerce')` (app.py line 72) is modelled
by `parseDateChars`, restricted to the canonical `YYYY-MM-DD` format that
`strftime('%Y-%m-%d')` (app.py line 95) produces — other formats pandas
would accept are outside the model, and a string the model rejects stands
for a cell pandas coerces to `NaT`.
-/

/-- Decimal digit test. -/
def isDigitChar (c : Char) : Bool :=
  decide ('0' ≤ c) && decide (c ≤ '9')

/-- Value of a decimal digit character. -/
def digitVal (c : Char) : Nat :=
  c.toNat - 48

/-- The number a string of decimal digits denotes. -/
def digitsVal (cs : List Char) : Nat :=
  cs.foldl (fun acc c => acc * 10 + digitVal c) 0

/-- Parse a nonempty all-digit field. -/
def parseNatDigits (cs : List Char) : Option Nat :=
  if cs ≠ [] ∧ cs.all isDigitChar then some (digitsVal cs) else none

/-- Split a character list on `-` separators. -/
def splitDash : List Char → List (List Char)
  | [] => [[]]
  | c :: cs =>
    if c = '-' then [] :: splitDash cs
    else
      match splitDash cs with
      | [] => [[c]]
      | g :: gs => (c :: g) :: gs

/-- A calendar date is resolvable when its month and day are in range
(the bounds `pd.to_datetime` accepts for a canonical date string). -/
def ValidDate (d : Date) : Prop :=
  1 ≤ d.month ∧ d.month ≤ 12 ∧ 1 ≤ d.day ∧ d.day ≤ 31

/-- `pd.to_datetime(..., errors='coerce')` on a canonical date cell:
`some` date for `YYYY-MM-DD` digit fields with in-range month and day,
`none` (NaT, dropped by `dropna`) otherwise. -/
def parseDateChars (cs : List Char) : Option Date :=
  match splitDash cs with
  | [ys, ms, ds] =>
    match parseNatDigits ys, parseNatDigits ms, parseNatDigits ds with
    | some y, some m, some d =>
      if 1 ≤ m ∧ m ≤ 12 ∧ 1 ≤ d ∧ d ≤ 31 then some ⟨y, m, d⟩ else none
    | _, _, _ => none
  | _ => none

/-- The character of a decimal digit. -/
def digitChar (n : Nat) : Char :=
  match n with
  | 0 => '0' | 1 => '1' | 2 => '2' | 3 => '3' | 4 => '4'
  | 5 => '5' | 6 => '6' | 7 => '7' | 8 => '8' | _ => '9'

/-- The decimal digits of a number, most significant first. -/
def natDigits (n : Nat) : List Char :=
  if _h : n < 10 then [digitChar n]
  else natDigits (n / 10) ++ [digitChar (n % 10)]
termination_by n
decreasing_by exact Nat.div_lt_self (by omega) (by omega)

/-- Left-pad with zeros to the given width (`%Y` pads to 4, `%m` and `%d`
to 2). -/
def padLeft (w : Nat) (cs : List Char) : List Char :=
  List.replicate (w - cs.length) '0' ++ cs

/-- `date.strftime('%Y-%m-%d')` (app.py line 95). -/
def fmtDate (d : Date) : List Char :=
  padLeft 4 (natDigits d.year)
    ++ '-' :: (padLeft 2 (natDigits d.month) ++ '-' :: padLeft 2 (natDigits d.day))

/-- One persisted CSV row: the date cell is still text. -/
structure RawRow where
  dateStr : List Char
  category : String
  amount : ℚ
  description : String
deriving DecidableEq

/-- The `date` argument of `add_expense` (app.py lines 91-97): a date
object (`hasattr(date, 'strftime')`, formatted canonically) or any other
value (stringified as it is). -/
inductive DateInput where
  | obj (d : Date)
  | raw (s : List Char)
deriving DecidableEq

/-- The date string `add_expense` stores (app.py lines 94-97). -/
def dateInputStr : DateInput → List Char
  | .obj d => fmtDate d
  | .raw s => s

/-- `ExpenseTracker.add_expense` at the level of the persisted store
(app.py lines 91-106): one row is appended, unconditionally, and the whole
store is rewritten. -/
def add_expense (file : List RawRow) (date : DateInput) (category : String)
    (amount : ℚ) (description : String) : List RawRow :=
  file ++ [⟨dateInputStr date, category, amount, description⟩]

/-- `ExpenseTracker.load_data` (app.py lines 66-77): parse every date
cell, keep the rows whose date resolves, drop the rest (`dropna`). -/
def load_data (file : List RawRow) : List ExpenseRecord :=
  file.filterMap fun row =>
    (parseDateChars row.dateStr).map fun d =>
      ⟨d, row.category, row.amount, row.description⟩

/-- A sequence of `add_expense` calls against a store. -/
def appendAll (file : List RawRow)
    (inputs : List (DateInput × String × ℚ × String)) : List RawRow :=
  inputs.foldl (fun f i => add_expense f i.1 i.2.1 i.2.2.1 i.2.2.2) file

/-- What one appended record becomes after a reload. -/
def loadRow (i : DateInput × String × ℚ × String) : Option ExpenseRecord :=
  (parseDateChars (dateInputStr i.1)).map fun d => ⟨d, i.2.1, i.2.2.1, i.2.2.2⟩

section ParsingLemmas

/-- Digit characters of a digit value. -/
theorem isDigitChar_digitChar (n : Nat) : isDigitChar (digitChar n) = true := by
  rcases n with _|_|_|_|_|_|_|_|_|n <;> rfl

/-- `digitChar` is inverted by `digitVal` on digits. -/
theorem digitVal_digitChar (n : Nat) (h : n < 10) :
    digitVal (digitChar n) = n := by
  interval_cases n <;> decide

/-- Appending one digit multiplies the value by ten. -/
theorem digitsVal_concat (a : List Char) (c : Char) :
    digitsVal (a ++ [c]) = digitsVal a * 10 + digitVal c := by
  simp [digitsVal, List.foldl_append]

/-- The digit rendering of a number denotes the number. -/
theorem digitsVal_natDigits (n : Nat) : digitsVal (natDigits n) = n := by
  induction n using Nat.strong_induction_on with
  | _ n ih =>
    rw [natDigits]
    by_cases h : n < 10
    · rw [dif_pos h]
      have hd := digitVal_digitChar n h
      simp [digitsVal, hd]
    · rw [dif_neg h]
      rw [digitsVal_concat,
        ih (n / 10) (Nat.div_lt_self (by omega) (by omega)),
        digitVal_digitChar (n % 10) (Nat.mod_lt _ (by omega))]
      omega

/-- Every character `natDigits` emits is a digit. -/
theorem natDigits_all_digits (n : Nat) :
    ∀ c ∈ natDigits n, isDigitChar c = true := by
  induction n using Nat.strong_induction_on with
  | _ n ih =>
    rw [natDigits]
    by_cases h : n < 10
    · rw [dif_pos h]
      intro c hc
      rw [List.mem_singleton.mp hc]
      exact isDigitChar_digitChar n
    · rw [dif_neg h]
      intro c hc
      rcases List.mem_append.mp hc with hc | hc
      · exact ih (n / 10) (Nat.div_lt_self (by omega) (by omega)) c hc
      · rw [List.mem_singleton.mp hc]
        exact isDigitChar_digitChar (n % 10)

/-- The rendering of a number is nonempty. -/
theorem natDigits_ne_nil (n : Nat) : natDigits n ≠ [] := by
  rw [natDigits]
  by_cases h : n < 10
  · rw [dif_pos h]; simp
  · rw [dif_neg h]; simp

/-- Leading zeros do not change a field's value. -/
theorem digitsVal_padLeft (w : Nat) (cs : List Char) :
    digitsVal (padLeft w cs) = digitsVal cs := by
  unfold padLeft digitsVal
  rw [List.foldl_append]
  have hz : ∀ j : Nat,
      (List.replicate j '0').foldl (fun acc c => acc * 10 + digitVal c) 0
        = 0 := by
    intro j
    induction j with
    | zero => rfl
    | succ j ihj => simpa [List.replicate_succ, digitVal] using ihj
  rw [hz]

/-- Padding preserves digit-only fields. -/
theorem padLeft_all_digits (w : Nat) (cs : List Char)
    (h : ∀ c ∈ cs, isDigitChar c = true) :
    ∀ c ∈ padLeft w cs, isDigitChar c = true := by
  intro c hc
  rcases List.mem_append.mp hc with hc | hc
  · rw [List.eq_of_mem_replicate hc]
    decide
  · exact h c hc

/-- A padded digit rendering parses back to the number. -/
theorem parseNatDigits_pad (w n : Nat) :
    parseNatDigits (padLeft w (natDigits n)) = some n := by
  rw [parseNatDigits, if_pos, digitsVal_padLeft, digitsVal_natDigits]
  constructor
  · unfold padLeft
    intro hnil
    rcases List.append_eq_nil.mp hnil with ⟨_, h2⟩
    exact natDigits_ne_nil n h2
  · rw [List.all_eq_true]
    exact padLeft_all_digits w (natDigits n) (natDigits_all_digits n)

/-- Digit characters are never the separator. -/
theorem digits_no_dash (cs : List Char)
    (h : ∀ c ∈ cs, isDigitChar c = true) : ∀ c ∈ cs, c ≠ '-' := by
  intro c hc he
  have hd := h c hc
  rw [he] at hd
  exact absurd hd (by decide)

/-- Splitting a dash-free field leaves it whole. -/
theorem splitDash_no_dash (cs : List Char) (h : ∀ c ∈ cs, c ≠ '-') :
    splitDash cs = [cs] := by
  induction cs with
  | nil => rfl
  | cons c cs ih =>
    rw [splitDash]
    rw [if_neg (h c (List.mem_cons_self c cs))]
    rw [ih fun x hx => h x (List.mem_cons_of_mem c hx)]

/-- Splitting after a dash-free prefix peels the prefix. -/
theorem splitDash_append (a rest : List Char) (h : ∀ c ∈ a, c ≠ '-') :
    splitDash (a ++ '-' :: rest) = a :: splitDash rest := by
  induction a with
  | nil =>
    rw [List.nil_append, splitDash, if_pos rfl]
  | cons c a ih =>
    rw [List.cons_append, splitDash,
      if_neg (h c (List.mem_cons_self c a)),
      ih fun x hx => h x (List.mem_cons_of_mem c hx)]

/-- Round trip: the canonical rendering of a resolvable date parses back
to the same date. -/
theorem parse_fmtDate (d : Date) (hd : ValidDate d) :
    parseDateChars (fmtDate d) = some d := by
  have hy := padLeft_all_digits 4 (natDigits d.year) (natDigits_all_digits _)
  have hm := padLeft_all_digits 2 (natDigits d.month) (natDigits_all_digits _)
  have hday := padLeft_all_digits 2 (natDigits d.day) (natDigits_all_digits _)
  have hsplit : splitDash (fmtDate d)
      = [padLeft 4 (natDigits d.year), padLeft 2 (natDigits d.month),
          padLeft 2 (natDigits d.day)] := by
    rw [fmtDate, splitDash_append _ _ (digits_no_dash _ hy),
      splitDash_append _ _ (digits_no_dash _ hm),
      splitDash_no_dash _ (digits_no_dash _ hday)]
  rw [parseDateChars, hsplit]
  simp only [parseNatDigits_pad]
  rw [if_pos ⟨hd.1, hd.2.1, hd.2.2.1, hd.2.2.2⟩]

/-- Loading a store after a batch of appends loads the old store plus the
parseable appended rows. -/
theorem load_appendAll (file : List RawRow)
    (inputs : List (DateInput × String × ℚ × String)) :
    load_data (appendAll file inputs)
      = load_data file ++ inputs.filterMap loadRow := by
  induction inputs generalizing file with
  | nil => simp [appendAll, List.filterMap_nil]
  | cons i is ih =>
    have hstep : appendAll file (i :: is)
        = appendAll (add_expense file i.1 i.2.1 i.2.2.1 i.2.2.2) is := rfl
    rw [hstep, ih, add_expense, load_data, List.filterMap_append]
    rw [← load_data, ← load_data]
    cases hp : parseDateChars (dateInputStr i.1) with
    | none =>
      simp [load_data, loadRow, hp, List.filterMap_cons]
    | some d =>
      simp [load_data, loadRow, hp, List.filterMap_cons]

end ParsingLemmas

/-- Claim C6: appending a batch of records to an empty store and
reloading yields exactly the parseable appended records in insertion
order; a record appended with a resolvable date reappears with identical
`(date, category, amount, description)`, and a record whose date string
does not parse does not reappear. -/
theorem c6_round_trip (inputs : List (DateInput × String × ℚ × String)) :
    load_data (appendAll [] inputs) = inputs.filterMap loadRow
    ∧ (∀ (d : Date) (c : String) (a : ℚ) (x : String), ValidDate d →
        loadRow (DateInput.obj d, c, a, x) = some ⟨d, c, a, x⟩)
    ∧ (∀ (s : List Char) (c : String) (a : ℚ) (x : String),
        parseDateChars s = none →
        loadRow (DateInput.raw s, c, a, x) = none) := by
  refine ⟨?_, ?_, ?_⟩
  · rw [load_appendAll]
    rfl
  · intro d c a x hd
    rw [loadRow]
    have hp : parseDateChars (dateInputStr (DateInput.obj d)) = some d :=
      parse_fmtDate d hd
    rw [hp]
    rfl
  · intro s c a x hs
    rw [loadRow]
    have hp : parseDateChars (dateInputStr (DateInput.raw s)) = none := hs
    rw [hp]
    rfl

/-- Witness for C6: appending a valid record and a malformed-date record
and reloading returns exactly the valid record. -/
theorem c6_round_trip_witness :
    load_data (appendAll []
      [(DateInput.obj ⟨2024, 1, 5⟩, "Food", 500, "lunch"),
       (DateInput.raw ['j', 'u', 'n', 'k'], "X", 1, "bad")])
      = [⟨⟨2024, 1, 5⟩, "Food", 500, "lunch"⟩] := by
  have h := c6_round_trip
    [(DateInput.obj ⟨2024, 1, 5⟩, "Food", 500, "lunch"),
     (DateInput.raw ['j', 'u', 'n', 'k'], "X", 1, "bad")]
  rw [h.1]
  have h2 := h.2.1 ⟨2024, 1, 5⟩ "Food" 500 "lunch" (by norm_num [ValidDate])
  have h3 := h.2.2 ['j', 'u', 'n', 'k'] "X" 1 "bad" (by rfl)
  rw [List.filterMap_cons, h2, List.filterMap_cons, h3, List.filterMap_nil]

/-- Counterexample to C10 as stated: the store-level `add_expense`
validates nothing — it stores a record with amount `-5` (and `load_data`
retains it), and it stores a record whose date string is unparseable. -/
theorem c10_invariant_counterexample :
    add_expense [] (DateInput.obj ⟨2024, 1, 5⟩) "Food" (-5) "x"
      = [⟨fmtDate ⟨2024, 1, 5⟩, "Food", -5, "x"⟩]
    ∧ load_data (add_expense [] (DateInput.obj ⟨2024, 1, 5⟩) "Food" (-5) "x")
      = [⟨⟨2024, 1, 5⟩, "Food", -5, "x"⟩]
    ∧ ¬ (0 < (-5 : ℚ))
    ∧ add_expense [] (DateInput.raw ['j', 'u', 'n', 'k']) "Food" 5 "y"
      = [⟨['j', 'u', 'n', 'k'], "Food", 5, "y"⟩]
    ∧ parseDateChars ['j', 'u', 'n', 'k'] = none := by
  refine ⟨rfl, ?_, by norm_num, rfl, rfl⟩
  have hp : parseDateChars (fmtDate ⟨2024, 1, 5⟩) = some ⟨2024, 1, 5⟩ :=
    parse_fmtDate _ (by norm_num [ValidDate])
  rw [add_expense, load_data]
  simp [dateInputStr, hp]

/-- Claim C10 (amended): load keeps exactly the rows whose date string
parses — every loaded record's date is the parse of its stored row's date
cell — while `add_expense` appends its row unconditionally, with no
validation of the amount or of the date string. -/
theorem c10_load_invariant (file : List RawRow) :
    (∀ rec ∈ load_data file, ∃ row ∈ file,
        parseDateChars row.dateStr = some rec.date
        ∧ rec.category = row.category
        ∧ rec.amount = row.amount
        ∧ rec.description = row.description)
    ∧ (∀ (di : DateInput) (c : String) (a : ℚ) (x : String),
        add_expense file di c a x = file ++ [⟨dateInputStr di, c, a, x⟩]) := by
  constructor
  · intro rec hrec
    rcases List.mem_filterMap.mp hrec with ⟨row, hrow, hmap⟩
    cases hp : parseDateChars row.dateStr with
    | none => rw [hp] at hmap; exact absurd hmap (by simp)
    | some d =>
      rw [hp] at hmap
      cases Option.some.inj hmap
      exact ⟨row, hrow, hp, rfl, rfl, rfl⟩
  · intro di c a x
    rfl

/-- Witness for C10's amended theorem: the stored-but-invalid amount
`-5` is appended as-is to an empty store. -/
theorem c10_load_invariant_witness :
    add_expense [] (DateInput.obj ⟨2024, 1, 5⟩) "Food" (-5) "note"
      = [⟨dateInputStr (DateInput.obj ⟨2024, 1, 5⟩), "Food", -5, "note"⟩] :=
  (c10_load_invariant []).2 (DateInput.obj ⟨2024, 1, 5⟩) "Food" (-5) "note"

/-!
State model for the frame claim.  `expenses_df` and `budgets` are the
tracker's shared state; `predict_next_month` (app.py lines 133-134) and
`show_ai_insights` (app.py lines 459-460) assign derived `year` and
`month` columns to the live dataframe.  The column values are functions
of the `date` column, so the state tracks their presence as a flag. -/

/-- The tracker's shared mutable state: the record collection, whether
the derived `year`/`month` columns are present on the dataframe, and the
budget map. -/
structure TrackerState where
  expenses : List ExpenseRecord
  derivedYM : Bool
  budgets : List (String × ℚ)
deriving DecidableEq

/-- `get_monthly_summary` as an operation on the tracker state: a pure
filter (app.py lines 112-118). -/
def st_get_monthly_summary (st : TrackerState) (y m : Nat) :
    TrackerState × List ExpenseRecord :=
  (st, get_monthly_summary st.expenses y m)

/-- `get_category_totals` as an operation on the tracker state (app.py
lines 120-125). -/
def st_get_category_totals (st : TrackerState) (y m : Nat) :
    TrackerState × List (String × ℚ) :=
  (st, get_category_totals st.expenses y m)

/-- `check_budget_alerts` as an operation on the tracker state (app.py
lines 157-181). -/
def st_check_budget_alerts (st : TrackerState) (y m : Nat) :
    TrackerState × List BudgetAlert :=
  (st, check_budget_alerts st.expenses st.budgets y m)

/-- `predict_next_month` as an operation on the tracker state: below 3
records it returns before touching the dataframe (app.py lines 129-130);
otherwise lines 133-134 assign the derived `year`/`month` columns to
`self.expenses_df` before the monthly grouping. -/
def st_predict_next_month (st : TrackerState) (curY curM : Nat) :
    TrackerState × (Option ℚ × String) :=
  if st.expenses.length < 3 then
    (st, (none, "Not enough data for prediction"))
  else
    ({st with derivedYM := true}, predict_next_month st.expenses curY curM)

/-- `show_ai_insights` as an operation on the tracker state: with no
records it returns at app.py line 451-453 before touching the dataframe;
otherwise lines 459-460 assign the derived `year`/`month` columns. -/
def st_show_ai_insights (st : TrackerState) :
    TrackerState × (Option (ℚ × Trend) × Option Bool) :=
  if st.expenses = [] then (st, (none, none))
  else
    ({st with derivedYM := true},
      (trendInsight st.expenses, consistencySignal st.expenses))

/-- Counterexample to C9 as stated: calling `predict_next_month` on a
3-record store without the derived columns changes the store state — it
adds the `year`/`month` columns — and so does the insight query. -/
theorem c9_mutation_counterexample :
    (st_predict_next_month ⟨exGrow, false, []⟩ 2024 3).1
      ≠ ⟨exGrow, false, []⟩
    ∧ (st_predict_next_month ⟨exGrow, false, []⟩ 2024 3).1.derivedYM = true
    ∧ (st_show_ai_insights ⟨exGrow, false, []⟩).1.derivedYM = true := by
  have h1 : (st_predict_next_month ⟨exGrow, false, []⟩ 2024 3).1
      = ⟨exGrow, true, ([] : List (String × ℚ))⟩ := rfl
  refine ⟨?_, by rw [h1], rfl⟩
  rw [h1]
  intro h
  have hflag := congrArg TrackerState.derivedYM h
  exact absurd hflag (by decide)

/-- Claim C9 (amended): `get_monthly_summary`, `get_category_totals` and
`check_budget_alerts` leave the tracker state unchanged; the prediction
and insight queries leave every record's fields and the budget map
unchanged, their only effect on the store being the derived `year`/`month`
columns they add to the dataframe. -/
theorem c9_query_effects (st : TrackerState) (y m curY curM : Nat) :
    (st_get_monthly_summary st y m).1 = st
    ∧ (st_get_category_totals st y m).1 = st
    ∧ (st_check_budget_alerts st y m).1 = st
    ∧ (st_predict_next_month st curY curM).1.expenses = st.expenses
    ∧ (st_predict_next_month st curY curM).1.budgets = st.budgets
    ∧ (st_show_ai_insights st).1.expenses = st.expenses
    ∧ (st_show_ai_insights st).1.budgets = st.budgets := by
  refine ⟨rfl, rfl, rfl, ?_, ?_, ?_, ?_⟩ <;>
    first
    | (unfold st_predict_next_month; split <;> rfl)
    | (unfold st_show_ai_insights; split <;> rfl)

end ExpenseApp
